import Mathlib

/-!
Verification of the gocryptfs cryptographic core against its source.

Byte strings are `List Nat` with every element `< 256`. Go strings are byte
strings, so filenames, ciphertext names and passwords all use the same
representation. Randomness (master keys, scrypt salts) is passed explicitly
as parameters, and file system state is passed explicitly, so every
definition is a pure computable function.
-/

namespace Gocryptfs

/-- Bytes of an ASCII string literal, for readable concrete inputs. -/
def strBytes (s : String) : List Nat := s.data.map Char.toNat

/-! ## Base64 (URL-safe, RFC 4648)

Modelled from the spec: the repository uses Go's `encoding/base64`
(`base64.URLEncoding` when the `Raw64` feature flag is off,
`base64.RawURLEncoding` when it is on); the library itself is not part of
the repository source. The model implements RFC 4648 URL-safe base64 over
byte lists: 3 input bytes become 4 alphabet characters, a final chunk of 1
or 2 bytes becomes 2 or 3 characters, and the padded variant appends `=`
(byte 61) up to a multiple of 4. Decoding rejects characters outside the
alphabet and (raw variant) lengths that are 1 mod 4; like Go's non-strict
decoder it ignores nonzero trailing bits. -/

/-- Character code of base64url alphabet index `i` (for `i < 64`). -/
def b64Char (i : Nat) : Nat :=
  if i < 26 then 65 + i
  else if i < 52 then 97 + (i - 26)
  else if i < 62 then 48 + (i - 52)
  else if i = 62 then 45
  else 95

/-- Alphabet index of character code `c`, `none` if `c` is not in the
base64url alphabet. -/
def b64Index (c : Nat) : Option Nat :=
  if 65 ≤ c ∧ c ≤ 90 then some (c - 65)
  else if 97 ≤ c ∧ c ≤ 122 then some (c - 97 + 26)
  else if 48 ≤ c ∧ c ≤ 57 then some (c - 48 + 52)
  else if c = 45 then some 62
  else if c = 95 then some 63
  else none

/-- Unpadded base64url encoding of a byte list. -/
def b64EncodeRaw : List Nat → List Nat
  | [] => []
  | [b0] => [b64Char (b0 / 4), b64Char (b0 % 4 * 16)]
  | [b0, b1] =>
    [b64Char (b0 / 4), b64Char (b0 % 4 * 16 + b1 / 16), b64Char (b1 % 16 * 4)]
  | b0 :: b1 :: b2 :: rest =>
    b64Char (b0 / 4) :: b64Char (b0 % 4 * 16 + b1 / 16) ::
    b64Char (b1 % 16 * 4 + b2 / 64) :: b64Char (b2 % 64) :: b64EncodeRaw rest

/-- Translate every character to its alphabet index; `none` on a character
outside the alphabet. -/
def b64Indices : List Nat → Option (List Nat)
  | [] => some []
  | c :: cs =>
    match b64Index c, b64Indices cs with
    | some i, some is => some (i :: is)
    | _, _ => none

/-- Reassemble bytes from sextet indices; `none` when the length is 1 mod 4
(an impossible base64 length). -/
def b64DecodeQuads : List Nat → Option (List Nat)
  | [] => some []
  | [_] => none
  | [c0, c1] => some [c0 * 4 + c1 / 16]
  | [c0, c1, c2] => some [c0 * 4 + c1 / 16, c1 % 16 * 16 + c2 / 4]
  | c0 :: c1 :: c2 :: c3 :: rest =>
    (b64DecodeQuads rest).map
      (fun bs => (c0 * 4 + c1 / 16) :: (c1 % 16 * 16 + c2 / 4) :: (c2 % 4 * 64 + c3) :: bs)

/-- Unpadded base64url decoding. -/
def b64DecodeRaw (s : List Nat) : Option (List Nat) :=
  match b64Indices s with
  | none => none
  | some is => b64DecodeQuads is

/-- Number of trailing `=` (byte 61) characters. -/
def countTrailingEq (s : List Nat) : Nat :=
  (s.reverse.takeWhile (fun c => c == 61)).length

/-- Padded base64url encoding: raw encoding followed by `=` padding to a
multiple of 4 characters. -/
def b64EncodePad (x : List Nat) : List Nat :=
  let e := b64EncodeRaw x
  e ++ List.replicate ((4 - e.length % 4) % 4) 61

/-- Padded base64url decoding: the length must be a multiple of 4, at most
two trailing `=` characters are stripped, and the body must be valid raw
base64 (so a stray `=` inside the body is rejected). -/
def b64DecodePad (s : List Nat) : Option (List Nat) :=
  if s.length % 4 ≠ 0 then none
  else
    let k := countTrailingEq s
    if 2 < k then none
    else b64DecodeRaw (s.take (s.length - k))

/-- Encoding selected by the `Raw64` flag, as in `NameTransform.B64`. -/
def b64Encode (raw64 : Bool) (x : List Nat) : List Nat :=
  if raw64 then b64EncodeRaw x else b64EncodePad x

/-- Decoding selected by the `Raw64` flag. -/
def b64Decode (raw64 : Bool) (s : List Nat) : Option (List Nat) :=
  if raw64 then b64DecodeRaw s else b64DecodePad s

/-- Go's `Encoding.EncodedLen`: `(n*8+5)/6` for the raw encoding and
`(n+2)/3*4` for the padded one. -/
def b64EncodedLen (raw64 : Bool) (n : Nat) : Nat :=
  if raw64 then (n * 8 + 5) / 6 else (n + 2) / 3 * 4

/-! ## EME wide-block cipher

Modelled from the spec: EME is a keyed, tweakable, length-preserving
permutation of 16-byte-aligned byte strings (the implementation lives in the
external `eme` package). The model keeps exactly those properties: a keyed
byte-wise shift parameterised by the key and the tweak (the directory IV),
with `emeDecrypt` its inverse. -/

/-- An EME cipher instance, determined by its key material. -/
structure EMECipher where
  key : Nat
deriving DecidableEq

/-- The shift amount a cipher instance applies under tweak `iv`. -/
def emeShift (c : EMECipher) (iv : List Nat) : Nat :=
  (c.key + iv.foldl (· + ·) 0) % 256

/-- EME encryption of `x` under tweak `iv`. -/
def emeEncrypt (c : EMECipher) (iv : List Nat) (x : List Nat) : List Nat :=
  x.map (fun b => (b + emeShift c iv) % 256)

/-- EME decryption, the inverse permutation on valid bytes. -/
def emeDecrypt (c : EMECipher) (iv : List Nat) (y : List Nat) : List Nat :=
  y.map (fun b => (b + (256 - emeShift c iv)) % 256)

/-! ## PKCS#7 padding

Modelled from the spec: `pad16` pads to a multiple of 16 with PKCS#7 and
`unPad16` undoes it, returning `none` on any invalid padding (the
`nametransform` source file holding them is not part of the given sources).
-/

/-- PKCS#7 padding to a multiple of the AES block size (16). -/
def pad16 (b : List Nat) : List Nat :=
  let padLen := 16 - b.length % 16
  b ++ List.replicate padLen padLen

/-- PKCS#7 unpadding; `none` on any padding error. -/
def unPad16 (b : List Nat) : Option (List Nat) :=
  match b.getLast? with
  | none => none
  | some padLen =>
    if b.length % 16 ≠ 0 then none
    else if 16 < padLen ∨ padLen = 0 then none
    else if b.length < padLen then none
    else if (b.drop (b.length - padLen)).all (fun c => c == padLen) then
      some (b.take (b.length - padLen))
    else none

/-! ## NameTransform (`internal/nametransform/names.go`) -/

/-- Name decryption error: either the base64 decode step failed (Go returns
the decoder's own error) or the generic `syscall.EBADMSG`. -/
inductive NameErr where
  | b64
  | ebadmsg
deriving DecidableEq

/-- The `NameTransform` record: EME cipher, long-name setting, base64
variant and badname glob patterns, as in `names.go`. -/
structure NameTransform where
  emeCipher : EMECipher
  longNames : Bool
  raw64 : Bool
  BadnamePatterns : List (List Nat)
deriving DecidableEq

/-- The `decryptName` pipeline from `names.go`: base64-decode, reject empty
or non-16-multiple input, EME-decrypt, PKCS#7-unpad, and reject a result
containing NUL (0) or `/` (47) or equal to `.` (46) or `..`; every
post-decode failure is the generic `EBADMSG`. -/
def decryptName (n : NameTransform) (cipherName : List Nat) (iv : List Nat) :
    Except NameErr (List Nat) :=
  match b64Decode n.raw64 cipherName with
  | none => .error .b64
  | some bin =>
    if bin.length = 0 then .error .ebadmsg
    else if bin.length % 16 ≠ 0 then .error .ebadmsg
    else
      match unPad16 (emeDecrypt n.emeCipher iv bin) with
      | none => .error .ebadmsg
      | some bin2 =>
        if 0 ∈ bin2 ∨ 47 ∈ bin2 then .error .ebadmsg
        else if bin2 = [46] ∨ bin2 = [46, 46] then .error .ebadmsg
        else .ok bin2

/-- The `EncryptName` pipeline from `names.go`: PKCS#7-pad, EME-encrypt with
the directory IV as tweak, base64-encode. -/
def EncryptName (n : NameTransform) (plainName : List Nat) (iv : List Nat) :
    List Nat :=
  b64Encode n.raw64 (emeEncrypt n.emeCipher iv (pad16 plainName))

/-- Fuel-driven core of the glob matcher. `*` matches any run of non-`/`
bytes, `?` one non-`/` byte; other bytes match literally. -/
def globMatchF : Nat → List Nat → List Nat → Bool
  | 0, _, _ => false
  | _ + 1, [], s => s.isEmpty
  | fuel + 1, 42 :: ps, s =>
    globMatchF fuel ps s ||
      (match s with
       | [] => false
       | c :: cs => decide (c ≠ 47) && globMatchF fuel (42 :: ps) cs)
  | _ + 1, 63 :: _, [] => false
  | fuel + 1, 63 :: ps, c :: cs => decide (c ≠ 47) && globMatchF fuel ps cs
  | _ + 1, _ :: _, [] => false
  | fuel + 1, p :: ps, c :: cs => decide (p = c) && globMatchF fuel ps cs

/-- Glob matching as done by `filepath.Match` on a well-formed pattern.
Modelled from the spec ("glob patterns used only on the decrypt path");
character classes and escapes are not needed by any claim. -/
def globMatch (p s : List Nat) : Bool :=
  globMatchF (p.length + s.length + 1) p s

/-- The `" GOCRYPTFS_BAD_NAME"` suffix appended to undecryptable names. -/
def badSuffix : List Nat := strBytes " GOCRYPTFS_BAD_NAME"

/-- The badname prefix loop of `DecryptName`: try `count` prefix lengths
starting at `charpos` and counting down, returning the first (longest)
decryptable prefix extended with the truncated suffix and the badname
marker. -/
def badnameLoop (n : NameTransform) (cipherName iv : List Nat) :
    Nat → Nat → Option (List Nat)
  | 0, _ => none
  | count + 1, charpos =>
    match decryptName n (cipherName.take charpos) iv with
    | .ok res => some (res ++ cipherName.drop charpos ++ badSuffix)
    | .error _ => badnameLoop n cipherName iv count (charpos - 1)

/-- The public `DecryptName` from `names.go`: on failure, if the ciphertext
name matches a badname pattern, try progressively shorter prefixes down to
`B64.EncodedLen(16)` characters; otherwise propagate the error. -/
def DecryptName (n : NameTransform) (cipherName : List Nat) (iv : List Nat) :
    Except NameErr (List Nat) :=
  match decryptName n cipherName iv with
  | .ok res => .ok res
  | .error e =>
    if n.BadnamePatterns.any (fun pattern => globMatch pattern cipherName) then
      let nameMin := b64EncodedLen n.raw64 16
      match badnameLoop n cipherName iv (cipherName.length - nameMin)
          (cipherName.length - 1) with
      | some res => .ok res
      | none => .ok (cipherName ++ badSuffix)
    else .error e

/-! ## Exit codes and errors (`internal/exitcodes`)

The `exitcodes` package is not among the given sources; the numeric codes
are fixed by the spec's stable exit-code table. -/

/-- Exit code for a command-line usage error. -/
def exitUsage : Nat := 6

/-- Exit code for an incorrect password. -/
def exitPasswordIncorrect : Nat := 12

/-- Exit code for a deprecated (pre-v0.6-upgrade) filesystem. -/
def exitDeprecatedFS : Nat := 16

/-- An error crossing the configfile API boundary: either a plain message
(`fmt.Errorf`) or one carrying an exit code (`exitcodes.NewErr`). -/
inductive Err where
  | plain (msg : String)
  | coded (msg : String) (code : Nat)
deriving DecidableEq

/-! ## ConfigFile (`internal/configfile`) -/

/-- The current on-disk format version, `contentenc.CurrentVersion`.
Modelled from the spec: the per-file header version is 2 and the config
`Version` field holds the same constant. -/
def CurrentVersion : Nat := 2

/-- Default content nonce length in bits, `contentenc.DefaultIVBits`.
Modelled from the spec: nonce length is 128 bits when `HKDF` is set. -/
def DefaultIVBits : Nat := 128

/-- The closed set of known feature flags, from the spec's flag table. -/
def knownFlags : List String :=
  ["GCMIV128", "HKDF", "PlaintextNames", "DirIV", "EMENames", "LongNames",
   "Raw64", "AESSIV", "FIDO2", "LongNameMax"]

/-- Flags `Load` requires for a filesystem without `PlaintextNames`.
Modelled from the spec: `GCMIV128` is required everywhere and `DirIV`,
`EMENames`, `LongNames`, `Raw64` for non-plaintextnames filesystems. -/
def requiredFlagsNormal : List String :=
  ["GCMIV128", "DirIV", "EMENames", "LongNames", "Raw64"]

/-- Flags `Load` requires when `PlaintextNames` is set. Modelled from the
spec: only `GCMIV128` of the required flags applies then. -/
def requiredFlagsPlaintextNames : List String :=
  ["GCMIV128"]

/-- Scrypt KDF parameters, as persisted in `ScryptObject`. -/
structure ScryptKDF where
  Salt : List Nat
  N : Nat
  R : Nat
  P : Nat
  KeyLen : Nat
deriving DecidableEq

/-- Model of `NewScryptKDF`: fresh parameters with cost `2^logN` and the defaults
`R=8, P=1, KeyLen=32`; the fresh random salt is passed explicitly. -/
def newScryptKDF (logN : Nat) (salt : List Nat) : ScryptKDF :=
  { Salt := salt, N := 2 ^ logN, R := 8, P := 1, KeyLen := 32 }

/-- Model of `ScryptKDF.DeriveKey`. Modelled from the spec: scrypt is a KDF mapping
(salt, password) to a key; the idealization makes it collision-free, which
is the overwhelming-probability behaviour the spec relies on. The marker
256 can occur in neither salt nor password bytes. -/
def scryptDeriveKey (kdf : ScryptKDF) (password : List Nat) : List Nat :=
  kdf.Salt ++ 256 :: password

/-- HKDF-SHA256 subkey expansion. Modelled from the spec: an injective
derivation distinct from the identity (idealized collision-free KDF). -/
def hkdfExpand (key : List Nat) : List Nat :=
  257 :: key

/-- The AEAD/cipher state built by `cryptocore.New`: the effective AEAD key
(HKDF-expanded when `useHKDF` is set) and the nonce length in bits. -/
structure CryptoCore where
  aeadKey : List Nat
  ivLen : Nat
deriving DecidableEq

/-- Model of `cryptocore.New` (backend and forceDecode do not affect key wrapping).
Modelled from the spec: with `useHKDF` the input key is expanded into the
AEAD subkey, otherwise used directly. -/
def cryptocoreNew (key : List Nat) (ivLen : Nat) (useHKDF : Bool) : CryptoCore :=
  { aeadKey := if useHKDF then hkdfExpand key else key, ivLen := ivLen }

/-- Model of `contentenc.ContentEnc`, reduced to the state key wrapping uses. -/
structure ContentEnc where
  cc : CryptoCore
deriving DecidableEq

/-- Model of `contentenc.New`. -/
def contentencNew (cc : CryptoCore) : ContentEnc :=
  { cc := cc }

/-- An AEAD-wrapped blob. Modelled from the spec: authenticated encryption
is idealized symbolically, so the blob records the key, nonce length and
associated data (block number and file ID) it was sealed with, and
decryption succeeds exactly when all of them match. -/
structure WrappedBlob where
  key : List Nat
  ivLen : Nat
  blockNo : Nat
  fileID : List Nat
  plain : List Nat
deriving DecidableEq

/-- Model of `ContentEnc.EncryptBlock`: seal `plain` under the AEAD key with AAD
`blockNo || fileID`. -/
def encryptBlock (ce : ContentEnc) (plain : List Nat) (blockNo : Nat)
    (fileID : List Nat) : WrappedBlob :=
  { key := ce.cc.aeadKey, ivLen := ce.cc.ivLen, blockNo := blockNo,
    fileID := fileID, plain := plain }

/-- Model of `ContentEnc.DecryptBlock` on an optional blob (an absent or empty
`EncryptedKey` fails authentication like a corrupted one). -/
def decryptBlock (ce : ContentEnc) (blob? : Option WrappedBlob)
    (blockNo : Nat) (fileID : List Nat) : Option (List Nat) :=
  match blob? with
  | none => none
  | some b =>
    if b.key = ce.cc.aeadKey ∧ b.ivLen = ce.cc.ivLen ∧ b.blockNo = blockNo ∧
        b.fileID = fileID then
      some b.plain
    else none

/-- FIDO2 parameters stored in the config file. -/
structure FIDO2Params where
  CredentialID : List Nat
  HMACSalt : List Nat
deriving DecidableEq

/-- The `ConfFile` record from `configfile`. -/
structure ConfFile where
  Creator : String
  EncryptedKey : Option WrappedBlob
  ScryptObject : ScryptKDF
  Version : Nat
  FeatureFlags : List String
  FIDO2 : FIDO2Params
  filename : String
deriving DecidableEq

/-- Model of `ConfFile.IsFeatureFlagSet`, with flags named by their string token. -/
def isFlagSet (cf : ConfFile) (flag : String) : Bool :=
  cf.FeatureFlags.contains flag

/-- Model of `getKeyEncrypter` from `configfile`: 96-bit nonces unless the `HKDF`
flag enables 128-bit ones (`DefaultIVBits`). -/
def getKeyEncrypter (scryptHash : List Nat) (useHKDF : Bool) : ContentEnc :=
  contentencNew
    (cryptocoreNew scryptHash (if useHKDF then DefaultIVBits else 96) useHKDF)

/-- Model of `ConfFile.EncryptKey`: derive the KEK from the password with fresh
scrypt parameters (the fresh salt passed explicitly), wrap the master key
at block 0 with empty AAD, and store parameters and blob in the config. -/
def EncryptKey (cf : ConfFile) (key password : List Nat) (logN : Nat)
    (salt : List Nat) : ConfFile :=
  let so := newScryptKDF logN salt
  let scryptHash := scryptDeriveKey so password
  let ce := getKeyEncrypter scryptHash (isFlagSet cf "HKDF")
  { cf with ScryptObject := so,
            EncryptedKey := some (encryptBlock ce key 0 []) }

/-- Model of `ConfFile.DecryptMasterKey`: derive the KEK from the stored scrypt
parameters, unwrap `EncryptedKey` at block 0 with empty AAD, and turn any
authentication failure into the `PasswordIncorrect` error (exit code 12). -/
def DecryptMasterKey (cf : ConfFile) (password : List Nat) :
    Except Err (List Nat) :=
  let scryptHash := scryptDeriveKey cf.ScryptObject password
  let ce := getKeyEncrypter scryptHash (isFlagSet cf "HKDF")
  match decryptBlock ce cf.EncryptedKey 0 [] with
  | some masterkey => .ok masterkey
  | none => .error (.coded "Password incorrect." exitPasswordIncorrect)

/-- Model of `configfile.Create`, up to the final `WriteFile`: populate the feature
flags from the toggles, then wrap the freshly generated master key (the key
and the scrypt salt, random in the source, are explicit parameters). -/
def Create (plaintextNames : Bool) (aessiv : Bool)
    (fido2CredentialID fido2HmacSalt : List Nat) (creator filename : String)
    (password key salt : List Nat) (logN : Nat) : ConfFile :=
  let flags1 := ["GCMIV128", "HKDF"] ++
    (if plaintextNames then ["PlaintextNames"]
     else ["DirIV", "EMENames", "LongNames", "Raw64"])
  let flags2 := flags1 ++ (if aessiv then ["AESSIV"] else [])
  let flags3 := flags2 ++ (if 0 < fido2CredentialID.length then ["FIDO2"] else [])
  let cf : ConfFile :=
    { Creator := creator, EncryptedKey := none,
      ScryptObject := newScryptKDF logN salt, Version := CurrentVersion,
      FeatureFlags := flags3,
      FIDO2 := if 0 < fido2CredentialID.length then
        { CredentialID := fido2CredentialID, HMACSalt := fido2HmacSalt }
      else { CredentialID := [], HMACSalt := [] },
      filename := filename }
  EncryptKey cf key password logN salt

/-- What reading and JSON-parsing the config file can yield: an empty file,
a file JSON cannot parse, or a parsed record. The read and `json.Unmarshal`
steps are Go standard library code; modelled from the spec ("Read and
JSON-parse. Reject empty file ..."). -/
inductive ConfRead where
  | empty
  | malformed
  | parsed (cf : ConfFile)
deriving DecidableEq

/-- Model of `configfile.Load` validation after the read/parse step: reject an empty
file, a parse failure, a wrong `Version`, an unknown feature flag, and
missing required flags (the latter with the `DeprecatedFS` exit code). -/
def Load (r : ConfRead) : Except Err ConfFile :=
  match r with
  | .empty => .error (.plain "Config file is empty")
  | .malformed => .error (.plain "json unmarshal failed")
  | .parsed cf =>
    if cf.Version ≠ CurrentVersion then
      .error (.plain "Unsupported on-disk format")
    else if ¬ (∀ flag ∈ cf.FeatureFlags, flag ∈ knownFlags) then
      .error (.plain "Unsupported feature flag")
    else
      let requiredFlags :=
        if "PlaintextNames" ∈ cf.FeatureFlags then requiredFlagsPlaintextNames
        else requiredFlagsNormal
      if ∀ flag ∈ requiredFlags, flag ∈ cf.FeatureFlags then .ok cf
      else .error (.coded "Deprecated filesystem" exitDeprecatedFS)

/-! ## File system model for `WriteFile`

`ConfFile.WriteFile` opens `<filename>.tmp` with `O_WRONLY|O_CREATE|O_EXCL`,
writes the JSON, fsyncs, closes, and renames over `filename`. The directory
is modelled as an association list from names to file data; POSIX gives
`O_EXCL` open the semantics of failing with `EEXIST` when the name already
exists, and `rename` atomically replaces the destination. -/

/-- Contents of a file in the model: a serialized config or raw bytes
(e.g. a stale half-written temporary file). -/
inductive FData where
  | conf (cf : ConfFile)
  | raw (bytes : List Nat)
deriving DecidableEq

/-- A directory: name-to-data bindings, the first binding for a name wins. -/
structure FileSys where
  files : List (String × FData)
deriving DecidableEq

/-- Look a name up in the directory. -/
def fsLookup (fs : FileSys) (name : String) : Option FData :=
  (fs.files.find? (fun p => p.1 == name)).map (fun p => p.2)

/-- Create or overwrite a file. -/
def fsInsert (fs : FileSys) (name : String) (d : FData) : FileSys :=
  { files := (name, d) :: fs.files }

/-- Remove a file. -/
def fsRemove (fs : FileSys) (name : String) : FileSys :=
  { files := fs.files.filter (fun p => ¬ p.1 == name) }

/-- POSIX `rename(src, dst)`: atomically move, replacing `dst`. -/
def fsRename (fs : FileSys) (src dst : String) : FileSys :=
  match fsLookup fs src with
  | some d => fsInsert (fsRemove fs src) dst d
  | none => fs

/-- Error from `WriteFile`; `eexist` is the `O_EXCL` open failure. -/
inductive WriteErr where
  | eexist
deriving DecidableEq

/-- Model of `ConfFile.WriteFile`: exclusive-create the temporary file, write the
config, and rename it over the target; returns the resulting directory and
the error, with the directory untouched when the exclusive open fails. -/
def WriteFile (fs : FileSys) (cf : ConfFile) : FileSys × Option WriteErr :=
  let tmp := cf.filename ++ ".tmp"
  match fsLookup fs tmp with
  | some _ => (fs, some .eexist)
  | none =>
    let fs1 := fsInsert fs tmp (.conf cf)
    (fsRename fs1 tmp cf.filename, none)

/-! ## CLI argument handling (`cli_args.go`) -/

/-- Split on commas, as Go's `strings.Split(s, ",")` (so the empty string
yields one empty field). -/
def splitCommaChars : List Char → List (List Char)
  | [] => [[]]
  | c :: cs =>
    let r := splitCommaChars cs
    if c = ',' then [] :: r
    else
      match r with
      | [] => [[c]]
      | g :: gs => (c :: g) :: gs

/-- Comma splitting on strings. -/
def splitComma (s : String) : List String :=
  (splitCommaChars s.data).map (fun l => String.mk l)

/-- Whether a string starts with the three characters `-o=`. -/
def hasOEqPrefix (s : String) : Bool :=
  match s.data with
  | '-' :: 'o' :: '=' :: _ => true
  | _ => false

/-- Drop the leading `-o=` (three ASCII characters). -/
def dropOEq (s : String) : String :=
  String.mk (s.data.drop 3)

/-- The scan loop of `prefixOArgs` over the arguments after the program
name: collect non-`-o` arguments in order; `"-o"` consumes the following
argument (an error if there is none) and `-o=...` carries its own options;
a later occurrence overwrites the remembered option group, so only the last
one survives. -/
def scanO : List String → Except Unit (List String × Option (List String))
  | [] => .ok ([], none)
  | [a] =>
    if a = "-o" then .error ()
    else if hasOEqPrefix a then .ok ([], some (splitComma (dropOEq a)))
    else .ok ([a], none)
  | a :: x :: rest =>
    if a = "-o" then
      match scanO rest with
      | .error e => .error e
      | .ok (other, opts') => .ok (other, some (opts'.getD (splitComma x)))
    else if hasOEqPrefix a then
      match scanO (x :: rest) with
      | .error e => .error e
      | .ok (other, opts') =>
        .ok (other, some (opts'.getD (splitComma (dropOEq a))))
    else
      match scanO (x :: rest) with
      | .error e => .error e
      | .ok (other, opts') => .ok (a :: other, opts')

/-- The same scan, keeping every `-o` option group in order of appearance;
used to state which groups the source discards. -/
def scanAllO : List String → Except Unit (List (List String) × List String)
  | [] => .ok ([], [])
  | [a] =>
    if a = "-o" then .error ()
    else if hasOEqPrefix a then .ok ([splitComma (dropOEq a)], [])
    else .ok ([], [a])
  | a :: x :: rest =>
    if a = "-o" then
      match scanAllO rest with
      | .error e => .error e
      | .ok (gs, other) => .ok (splitComma x :: gs, other)
    else if hasOEqPrefix a then
      match scanAllO (x :: rest) with
      | .error e => .error e
      | .ok (gs, other) => .ok (splitComma (dropOEq a) :: gs, other)
    else
      match scanAllO (x :: rest) with
      | .error e => .error e
      | .ok (gs, other) => .ok (gs, a :: other)

/-- Expansion of one `-o` option group: skip empty entries, reject a
literal `o` or `-o` (the source exits with the Usage code there), and
prepend a dash to everything else. -/
def expandO : List String → Except Unit (List String)
  | [] => .ok []
  | o :: rest =>
    if o = "" then expandO rest
    else if o = "o" ∨ o = "-o" then .error ()
    else
      match expandO rest with
      | .ok t => .ok (("-" ++ o) :: t)
      | .error e => .error e

/-- How `prefixOArgs` can fail: `"-o"` without an argument (returned as an
error to the caller, which exits with the Usage code) or the direct
Usage-exit on `-o o`. -/
inductive CliErr where
  | missingOArg
  | usageExit
deriving DecidableEq

/-- Model of `prefixOArgs` from `cli_args.go`: with fewer than 3 arguments or a
literal `--` anywhere, return the command line unchanged; otherwise expand
the surviving `-o` option group in front of the remaining arguments. -/
def prefixOArgs (osArgs : List String) : Except CliErr (List String) :=
  if osArgs.length < 3 then .ok osArgs
  else if "--" ∈ osArgs.drop 1 then .ok osArgs
  else
    match osArgs with
    | [] => .ok osArgs
    | prog :: rest =>
      match scanO rest with
      | .error _ => .error .missingOArg
      | .ok (other, oOpts) =>
        match expandO (oOpts.getD []) with
        | .error _ => .error .usageExit
        | .ok eo => .ok (prog :: (eo ++ other))

/-- The password-source fields of `argContainer` that the conflict checks
at the end of `parseCliOptsBase` read. -/
structure CliArgs where
  extpass : List String
  passfile : List String
  masterkey : String
  fido2 : String
deriving DecidableEq

/-- The mutually-exclusive-password-source checks of `parseCliOptsBase`, in
source order; `some exitUsage` models the `os.Exit(exitcodes.Usage)` the
first triggered check performs. -/
def passwordConflictCheck (a : CliArgs) : Option Nat :=
  if a.extpass ≠ [] ∧ a.passfile ≠ [] then some exitUsage
  else if a.passfile ≠ [] ∧ a.masterkey ≠ "" then some exitUsage
  else if a.extpass ≠ [] ∧ a.masterkey ≠ "" then some exitUsage
  else if a.extpass ≠ [] ∧ a.fido2 ≠ "" then some exitUsage
  else none

/-- Decidable equality for `Except` results, so concrete runs of the
embedded functions can be checked by `decide`. -/
instance {ε α : Type} [DecidableEq ε] [DecidableEq α] : DecidableEq (Except ε α) := fun x y =>
  match x, y with
  | .ok a, .ok b => if h : a = b then isTrue (by rw [h]) else isFalse (by simp [h])
  | .ok _, .error _ => isFalse (fun hc => Except.noConfusion hc)
  | .error _, .ok _ => isFalse (fun hc => Except.noConfusion hc)
  | .error a, .error b => if h : a = b then isTrue (by rw [h]) else isFalse (by simp [h])

/-! ## Lemmas: base64 round-trip -/

theorem b64Index_b64Char (i : Nat) (h : i < 64) : b64Index (b64Char i) = some i := by
  unfold b64Char b64Index
  split_ifs <;> first
    | (exfalso; omega)
    | (simp only [Option.some.injEq]; omega)

theorem b64Char_ne_61 (i : Nat) : b64Char i ≠ 61 := by
  unfold b64Char
  split_ifs <;> omega

/-- Raw base64 decoding inverts raw encoding on byte lists. -/
theorem b64DecodeRaw_encodeRaw_fuel :
    ∀ (n : Nat) (x : List Nat), x.length ≤ n → (∀ b ∈ x, b < 256) →
      b64DecodeRaw (b64EncodeRaw x) = some x := by
  intro n
  induction n with
  | zero =>
    intro x hlen _
    have : x = [] := List.eq_nil_of_length_eq_zero (Nat.le_zero.mp hlen)
    subst this
    rfl
  | succ n ih =>
    intro x hlen hx
    match x with
    | [] => rfl
    | [b0] =>
      have h0 : b0 < 256 := hx b0 (by simp)
      simp only [b64EncodeRaw, b64DecodeRaw, b64Indices,
        b64Index_b64Char (b0 / 4) (by omega),
        b64Index_b64Char (b0 % 4 * 16) (by omega), b64DecodeQuads,
        Option.some.injEq, List.cons.injEq, and_true]
      omega
    | [b0, b1] =>
      have h0 : b0 < 256 := hx b0 (by simp)
      have h1 : b1 < 256 := hx b1 (by simp)
      simp only [b64EncodeRaw, b64DecodeRaw, b64Indices,
        b64Index_b64Char (b0 / 4) (by omega),
        b64Index_b64Char (b0 % 4 * 16 + b1 / 16) (by omega),
        b64Index_b64Char (b1 % 16 * 4) (by omega), b64DecodeQuads,
        Option.some.injEq, List.cons.injEq, and_true]
      constructor <;> omega
    | b0 :: b1 :: b2 :: rest =>
      have h0 : b0 < 256 := hx b0 (by simp)
      have h1 : b1 < 256 := hx b1 (by simp)
      have h2 : b2 < 256 := hx b2 (by simp)
      have hrest : b64DecodeRaw (b64EncodeRaw rest) = some rest := by
        apply ih rest (by simp at hlen; omega)
        intro b hb
        exact hx b (by simp [hb])
      simp only [b64DecodeRaw] at hrest
      rcases hri : b64Indices (b64EncodeRaw rest) with _ | is
      · rw [hri] at hrest; exact absurd hrest (by simp)
      · rw [hri] at hrest
        have hq : b64DecodeQuads is = some rest := hrest
        simp only [b64EncodeRaw, b64DecodeRaw, b64Indices,
          b64Index_b64Char (b0 / 4) (by omega),
          b64Index_b64Char (b0 % 4 * 16 + b1 / 16) (by omega),
          b64Index_b64Char (b1 % 16 * 4 + b2 / 64) (by omega),
          b64Index_b64Char (b2 % 64) (by omega), hri, b64DecodeQuads, hq,
          Option.map_some', Option.some.injEq, List.cons.injEq, and_true]
        omega

theorem b64DecodeRaw_encodeRaw (x : List Nat) (hx : ∀ b ∈ x, b < 256) :
    b64DecodeRaw (b64EncodeRaw x) = some x :=
  b64DecodeRaw_encodeRaw_fuel x.length x (Nat.le_refl _) hx

/-- Raw encoding never produces a length that is 1 mod 4. -/
theorem b64EncodeRaw_len_mod :
    ∀ (n : Nat) (x : List Nat), x.length ≤ n → (b64EncodeRaw x).length % 4 ≠ 1 := by
  intro n
  induction n with
  | zero =>
    intro x hlen
    have : x = [] := List.eq_nil_of_length_eq_zero (Nat.le_zero.mp hlen)
    subst this
    simp [b64EncodeRaw]
  | succ n ih =>
    intro x hlen
    match x with
    | [] => simp [b64EncodeRaw]
    | [b0] => simp [b64EncodeRaw]
    | [b0, b1] => simp [b64EncodeRaw]
    | b0 :: b1 :: b2 :: rest =>
      have := ih rest (by simp at hlen; omega)
      simp only [b64EncodeRaw, List.length_cons]
      omega

/-- Raw encoding never produces the `=` character. -/
theorem b64EncodeRaw_ne_61 :
    ∀ (n : Nat) (x : List Nat), x.length ≤ n → ∀ c ∈ b64EncodeRaw x, c ≠ 61 := by
  intro n
  induction n with
  | zero =>
    intro x hlen
    have : x = [] := List.eq_nil_of_length_eq_zero (Nat.le_zero.mp hlen)
    subst this
    simp [b64EncodeRaw]
  | succ n ih =>
    intro x hlen c hc
    match x with
    | [] => simp [b64EncodeRaw] at hc
    | [b0] =>
      simp only [b64EncodeRaw, List.mem_cons, List.not_mem_nil, or_false] at hc
      rcases hc with h | h <;> exact h ▸ b64Char_ne_61 _
    | [b0, b1] =>
      simp only [b64EncodeRaw, List.mem_cons, List.not_mem_nil, or_false] at hc
      rcases hc with h | h | h <;> exact h ▸ b64Char_ne_61 _
    | b0 :: b1 :: b2 :: rest =>
      simp only [b64EncodeRaw, List.mem_cons] at hc
      rcases hc with h | h | h | h | h
      · exact h ▸ b64Char_ne_61 _
      · exact h ▸ b64Char_ne_61 _
      · exact h ▸ b64Char_ne_61 _
      · exact h ▸ b64Char_ne_61 _
      · exact ih rest (by simp at hlen; omega) c h

theorem takeWhile_replicate_61_append (p : Nat) (l : List Nat) :
    (List.replicate p 61 ++ l).takeWhile (fun c => c == 61) =
      List.replicate p 61 ++ l.takeWhile (fun c => c == 61) := by
  induction p with
  | zero => simp
  | succ p ih => simp [List.replicate_succ, List.takeWhile_cons, ih]

theorem takeWhile_61_eq_nil (l : List Nat) (hl : ∀ c ∈ l, c ≠ 61) :
    l.takeWhile (fun c => c == 61) = [] := by
  cases l with
  | nil => rfl
  | cons c cs =>
    have : ¬ (c == 61) = true := by
      simpa using hl c (by simp)
    simp [List.takeWhile_cons, this]

theorem countTrailingEq_append_replicate (e : List Nat) (p : Nat)
    (he : ∀ c ∈ e, c ≠ 61) :
    countTrailingEq (e ++ List.replicate p 61) = p := by
  unfold countTrailingEq
  rw [List.reverse_append, List.reverse_replicate, takeWhile_replicate_61_append,
    takeWhile_61_eq_nil e.reverse (by intro c hc; exact he c (List.mem_reverse.mp hc))]
  simp

/-- Padded base64 decoding inverts padded encoding on byte lists. -/
theorem b64DecodePad_encodePad (x : List Nat) (hx : ∀ b ∈ x, b < 256) :
    b64DecodePad (b64EncodePad x) = some x := by
  unfold b64EncodePad b64DecodePad
  set e := b64EncodeRaw x with he
  set p := (4 - e.length % 4) % 4 with hp
  have hmod : e.length % 4 ≠ 1 := by
    rw [he]
    exact b64EncodeRaw_len_mod x.length x (Nat.le_refl _)
  have hne : ∀ c ∈ e, c ≠ 61 := b64EncodeRaw_ne_61 x.length x (Nat.le_refl _)
  have hcount : countTrailingEq (e ++ List.replicate p 61) = p :=
    countTrailingEq_append_replicate e p hne
  have hlen : (e ++ List.replicate p 61).length = e.length + p := by simp
  have hlenmod : (e.length + p) % 4 = 0 := by omega
  have hple : p ≤ 2 := by omega
  rw [hcount]
  simp only [hlen, hlenmod]
  rw [if_neg (by omega), if_neg (by omega)]
  have htake : (e ++ List.replicate p 61).take (e.length + p - p) = e := by
    rw [Nat.add_sub_cancel]
    exact List.take_left e _
  rw [htake]
  exact b64DecodeRaw_encodeRaw x hx

/-- The configured base64 decoder inverts the configured encoder. -/
theorem b64Decode_b64Encode (raw64 : Bool) (x : List Nat)
    (hx : ∀ b ∈ x, b < 256) : b64Decode raw64 (b64Encode raw64 x) = some x := by
  cases raw64
  · simpa [b64Encode, b64Decode] using b64DecodePad_encodePad x hx
  · simpa [b64Encode, b64Decode] using b64DecodeRaw_encodeRaw x hx

/-! ## Lemmas: EME and PKCS#7 padding -/

theorem emeShift_lt (c : EMECipher) (iv : List Nat) : emeShift c iv < 256 :=
  Nat.mod_lt _ (by omega)

theorem emeDecrypt_emeEncrypt (c : EMECipher) (iv x : List Nat)
    (hx : ∀ b ∈ x, b < 256) : emeDecrypt c iv (emeEncrypt c iv x) = x := by
  unfold emeEncrypt emeDecrypt
  rw [List.map_map]
  have hs := emeShift_lt c iv
  conv_rhs => rw [← List.map_id x]
  apply List.map_congr_left
  intro b hb
  have hblt := hx b hb
  simp only [Function.comp_apply, id_eq]
  omega

theorem emeEncrypt_lt (c : EMECipher) (iv x : List Nat) :
    ∀ b ∈ emeEncrypt c iv x, b < 256 := by
  intro b hb
  unfold emeEncrypt at hb
  obtain ⟨a, _, rfl⟩ := List.mem_map.mp hb
  exact Nat.mod_lt _ (by omega)

theorem emeEncrypt_length (c : EMECipher) (iv x : List Nat) :
    (emeEncrypt c iv x).length = x.length :=
  List.length_map x _

theorem pad16_length (b : List Nat) :
    (pad16 b).length = b.length + (16 - b.length % 16) := by
  simp [pad16]

theorem pad16_length_mod (b : List Nat) : (pad16 b).length % 16 = 0 := by
  rw [pad16_length]
  omega

theorem pad16_length_pos (b : List Nat) : 0 < (pad16 b).length := by
  rw [pad16_length]
  omega

theorem pad16_lt (b : List Nat) (hb : ∀ c ∈ b, c < 256) :
    ∀ c ∈ pad16 b, c < 256 := by
  intro c hc
  unfold pad16 at hc
  rcases List.mem_append.mp hc with h | h
  · exact hb c h
  · have := List.eq_of_mem_replicate h
    omega

theorem getLast?_replicate_pos (k a : Nat) (h : k ≠ 0) :
    (List.replicate k a).getLast? = some a := by
  induction k with
  | zero => exact absurd rfl h
  | succ m ih =>
    cases m with
    | zero => rfl
    | succ m' =>
      rw [List.replicate_succ, List.replicate_succ,
        List.getLast?_cons_cons, ← List.replicate_succ]
      exact ih (by omega)

theorem unPad16_pad16 (x : List Nat) : unPad16 (pad16 x) = some x := by
  set k := 16 - x.length % 16 with hk
  have hkpos : 0 < k := by omega
  have hklt : k ≤ 16 := by omega
  have hpadeq : pad16 x = x ++ List.replicate k k := rfl
  have hlen : (pad16 x).length = x.length + k := by
    rw [hpadeq]
    simp
  have hmod : (pad16 x).length % 16 = 0 := pad16_length_mod x
  have hlast : (pad16 x).getLast? = some k := by
    rw [hpadeq, List.getLast?_append_of_ne_nil, getLast?_replicate_pos _ _ (by omega)]
    simp only [ne_eq, List.replicate_eq_nil_iff]
    omega
  have hsub : (pad16 x).length - k = x.length := by omega
  have hall : ((List.replicate k k).all (fun c => c == k)) = true := by
    rw [List.all_eq_true]
    intro c hc
    have := List.eq_of_mem_replicate hc
    simp [this]
  simp only [unPad16, hlast]
  rw [if_neg (by omega), if_neg (by omega), if_neg (by omega), hsub, hpadeq,
    List.drop_left, List.take_left, if_pos hall]

/-! ## Lemmas: name round-trip -/

/-- A plaintext name that the encrypt path accepts and the decrypt path
reproduces: genuine bytes without NUL or slash, not `.`, `..` or empty. -/
def validName (n : List Nat) : Prop :=
  (∀ b ∈ n, b < 256) ∧ 0 ∉ n ∧ 47 ∉ n ∧ n ≠ [46] ∧ n ≠ [46, 46] ∧ n ≠ []

instance (n : List Nat) : Decidable (validName n) := by
  unfold validName
  infer_instance

theorem decryptName_EncryptName (nt : NameTransform) (n iv : List Nat)
    (hv : validName n) : decryptName nt (EncryptName nt n iv) iv = .ok n := by
  obtain ⟨hb, hnul, hslash, hdot, hdotdot, _⟩ := hv
  have hpadlt : ∀ b ∈ pad16 n, b < 256 := pad16_lt n hb
  have hemelt := emeEncrypt_lt nt.emeCipher iv (pad16 n)
  simp only [decryptName, EncryptName, b64Decode_b64Encode nt.raw64 _ hemelt]
  rw [emeEncrypt_length]
  rw [if_neg (by have := pad16_length_pos n; omega),
    if_neg (by have := pad16_length_mod n; omega)]
  simp only [emeDecrypt_emeEncrypt nt.emeCipher iv (pad16 n) hpadlt, unPad16_pad16 n]
  rw [if_neg (by tauto), if_neg (by tauto)]

/-! ## Lemmas: the badname prefix loop -/

/-- If no prefix length the loop visits decrypts, the loop fails. -/
theorem badnameLoop_none (nt : NameTransform) (c iv : List Nat) :
    ∀ (k charpos : Nat),
      (∀ j, charpos + 1 ≤ j + k → j ≤ charpos →
        ∀ r, decryptName nt (c.take j) iv ≠ .ok r) →
      badnameLoop nt c iv k charpos = none := by
  intro k
  induction k with
  | zero => intro charpos _; rfl
  | succ k ih =>
    intro charpos h
    unfold badnameLoop
    rcases hd : decryptName nt (c.take charpos) iv with e | r
    · simp only [hd]
      apply ih
      intro j hj1 hj2 r
      exact h j (by omega) (by omega) r
    · exact absurd hd (h charpos (by omega) (by omega) r)

/-- If the longest decryptable prefix the loop visits has length `j`, the
loop returns its decryption, the truncated suffix and the badname marker. -/
theorem badnameLoop_some (nt : NameTransform) (c iv : List Nat) :
    ∀ (k charpos j : Nat) (r : List Nat),
      decryptName nt (c.take j) iv = .ok r →
      charpos + 1 ≤ j + k → j ≤ charpos →
      (∀ j2, j < j2 → j2 ≤ charpos →
        ∀ r2, decryptName nt (c.take j2) iv ≠ .ok r2) →
      badnameLoop nt c iv k charpos = some (r ++ c.drop j ++ badSuffix) := by
  intro k
  induction k with
  | zero =>
    intro charpos j r _ h1 h2 _
    omega
  | succ k ih =>
    intro charpos j r hok h1 h2 hmax
    by_cases hj : j = charpos
    · subst hj
      unfold badnameLoop
      simp only [hok]
    · have hjlt : j < charpos := by omega
      unfold badnameLoop
      rcases hd : decryptName nt (c.take charpos) iv with e | r2
      · simp only [hd]
        have hrec := ih (charpos - 1) j r hok (by omega) (by omega)
          (fun j2 hj2a hj2b r2 => hmax j2 hj2a (by omega) r2)
        exact hrec
      · exact absurd hd (hmax charpos hjlt (by omega) r2)

/-! ## Lemmas: the `-o` scan -/

theorem getLast?_cons_eq {α : Type} (a : α) (l : List α) :
    (a :: l).getLast? = some ((l.getLast?).getD a) := by
  induction l generalizing a with
  | nil => rfl
  | cons b t ih =>
    rw [List.getLast?_cons_cons, ih b]
    simp [ih b]

/-- The source's single remembered `-o` group is the last of all groups. -/
theorem scanO_eq_scanAllO :
    ∀ (n : Nat) (l : List String), l.length ≤ n →
      scanO l = (match scanAllO l with
        | .error e => .error e
        | .ok (gs, other) => .ok (other, gs.getLast?)) := by
  intro n
  induction n with
  | zero =>
    intro l h
    have : l = [] := List.eq_nil_of_length_eq_zero (Nat.le_zero.mp h)
    subst this
    rfl
  | succ n ih =>
    intro l hlen
    match l with
    | [] => rfl
    | [a] =>
      simp only [scanO, scanAllO]
      by_cases ha : a = "-o"
      · rw [if_pos ha, if_pos ha]
      · rw [if_neg ha, if_neg ha]
        rcases hb : hasOEqPrefix a with _ | _ <;> simp
    | a :: x :: rest =>
      have ih1 := ih rest (by simp at hlen; omega)
      have ih2 := ih (x :: rest) (by simp only [List.length_cons] at hlen ⊢; omega)
      simp only [scanO, scanAllO]
      by_cases ha : a = "-o"
      · rw [if_pos ha, if_pos ha]
        rcases hs : scanAllO rest with e | ⟨gs, other⟩ <;>
          rw [hs] at ih1 <;> simp only [ih1, hs, getLast?_cons_eq]
      · rw [if_neg ha, if_neg ha]
        rcases hb : hasOEqPrefix a with _ | _
        · simp only [Bool.false_eq_true, if_false]
          rcases hs : scanAllO (x :: rest) with e | ⟨gs, other⟩ <;>
            rw [hs] at ih2 <;> simp only [ih2, hs]
        · simp only [if_true]
          rcases hs : scanAllO (x :: rest) with e | ⟨gs, other⟩ <;>
            rw [hs] at ih2 <;> simp only [ih2, hs, getLast?_cons_eq]

/-- Each `-o` group and each other argument consumes at least one token. -/
theorem scanAllO_length :
    ∀ (n : Nat) (l : List String) (gs : List (List String)) (other : List String),
      l.length ≤ n → scanAllO l = .ok (gs, other) →
      gs.length + other.length ≤ l.length := by
  intro n
  induction n with
  | zero =>
    intro l gs other h hscan
    have : l = [] := List.eq_nil_of_length_eq_zero (Nat.le_zero.mp h)
    subst this
    cases hscan
    simp
  | succ n ih =>
    intro l gs other hlen hscan
    match l with
    | [] =>
      cases hscan
      simp
    | [a] =>
      simp only [scanAllO] at hscan
      by_cases ha : a = "-o"
      · rw [if_pos ha] at hscan
        cases hscan
      · rw [if_neg ha] at hscan
        rcases hb : hasOEqPrefix a with _ | _ <;> rw [hb] at hscan <;>
          simp only [Bool.false_eq_true, if_false, if_true] at hscan <;>
          cases hscan <;> simp
    | a :: x :: rest =>
      simp only [scanAllO] at hscan
      by_cases ha : a = "-o"
      · rw [if_pos ha] at hscan
        rcases hs : scanAllO rest with e | ⟨gs', other'⟩ <;> rw [hs] at hscan
        · cases hscan
        · cases hscan
          have := ih rest gs' other (by simp at hlen; omega) hs
          simp only [List.length_cons]
          omega
      · rw [if_neg ha] at hscan
        rcases hb : hasOEqPrefix a with _ | _ <;> rw [hb] at hscan
        · simp only [Bool.false_eq_true, if_false] at hscan
          rcases hs : scanAllO (x :: rest) with e | ⟨gs', other'⟩ <;> rw [hs] at hscan
          · cases hscan
          · cases hscan
            have := ih (x :: rest) gs other' (by simp only [List.length_cons] at hlen ⊢; omega) hs
            simp only [List.length_cons] at this ⊢
            omega
        · simp only [if_true] at hscan
          rcases hs : scanAllO (x :: rest) with e | ⟨gs', other'⟩ <;> rw [hs] at hscan
          · cases hscan
          · cases hscan
            have := ih (x :: rest) gs' other (by simp only [List.length_cons] at hlen ⊢; omega) hs
            simp only [List.length_cons] at this ⊢
            omega

/-! ## Lemmas: key wrapping -/

theorem scryptDeriveKey_ne (so : ScryptKDF) (p1 p2 : List Nat) (hne : p1 ≠ p2) :
    scryptDeriveKey so p1 ≠ scryptDeriveKey so p2 := by
  intro h
  apply hne
  unfold scryptDeriveKey at h
  have h2 := List.append_cancel_left h
  exact (List.cons.inj h2).2

/-- Different passwords give different effective AEAD keys, with or without
the HKDF expansion step. -/
theorem effectiveKey_ne (u : Bool) (so : ScryptKDF) (p1 p2 : List Nat)
    (hne : p1 ≠ p2) :
    (if u then hkdfExpand (scryptDeriveKey so p1) else scryptDeriveKey so p1) ≠
      (if u then hkdfExpand (scryptDeriveKey so p2) else scryptDeriveKey so p2) := by
  have hd := scryptDeriveKey_ne so p1 p2 hne
  cases u
  · simpa using hd
  · simp only [if_true]
    intro h
    unfold hkdfExpand at h
    exact hd ((List.cons.inj h).2)

/-- Symbolic AEAD opening succeeds exactly on a blob sealed with the same
key, nonce length and associated data. -/
theorem decryptBlock_ok_iff (ce : ContentEnc) (blob? : Option WrappedBlob)
    (blockNo : Nat) (fileID : List Nat) (p : List Nat) :
    decryptBlock ce blob? blockNo fileID = some p ↔
    ∃ b, blob? = some b ∧ b.key = ce.cc.aeadKey ∧ b.ivLen = ce.cc.ivLen ∧
      b.blockNo = blockNo ∧ b.fileID = fileID ∧ b.plain = p := by
  cases blob? with
  | none => simp [decryptBlock]
  | some b =>
    simp only [decryptBlock]
    split_ifs with h
    · simp only [Option.some.injEq]
      constructor
      · rintro rfl
        exact ⟨b, rfl, h.1, h.2.1, h.2.2.1, h.2.2.2, rfl⟩
      · rintro ⟨b2, hb2, _, _, _, _, hp⟩
        cases hb2
        exact hp
    · constructor
      · intro hc
        cases hc
      · rintro ⟨b2, hb2, h1, h2, h3, h4, _⟩
        cases hb2
        exact absurd ⟨h1, h2, h3, h4⟩ h

/-- Unwrapping succeeds exactly when the symbolic AEAD opens the stored
blob at block 0 with empty AAD under the scrypt-derived key. -/
theorem DecryptMasterKey_ok_iff (cf : ConfFile) (password mk : List Nat) :
    DecryptMasterKey cf password = .ok mk ↔
    decryptBlock
      (getKeyEncrypter (scryptDeriveKey cf.ScryptObject password)
        (isFlagSet cf "HKDF"))
      cf.EncryptedKey 0 [] = some mk := by
  simp only [DecryptMasterKey]
  rcases h : decryptBlock
      (getKeyEncrypter (scryptDeriveKey cf.ScryptObject password)
        (isFlagSet cf "HKDF"))
      cf.EncryptedKey 0 [] with _ | p <;> simp [h]

/-! ## Claims -/

/-- Claim C1: wrapping a 32-byte master key with `EncryptKey(K, P, logN)` and
unwrapping with `DecryptMasterKey(P)` on the same `ConfFile` returns `K`; any
different password `P'` yields the `PasswordIncorrect` error with exit code
12 and no key. -/
theorem c1_key_wrap_roundtrip (cf : ConfFile) (key password : List Nat)
    (logN : Nat) (salt : List Nat) (hklen : key.length = 32) :
    DecryptMasterKey (EncryptKey cf key password logN salt) password = .ok key
    ∧ ∀ password2, password2 ≠ password →
        DecryptMasterKey (EncryptKey cf key password logN salt) password2 =
          .error (.coded "Password incorrect." exitPasswordIncorrect) := by
  constructor
  · simp [DecryptMasterKey, EncryptKey, decryptBlock, encryptBlock,
      getKeyEncrypter, contentencNew, cryptocoreNew, isFlagSet]
  · intro p2 hne
    have hkeyne := effectiveKey_ne (isFlagSet cf "HKDF") (newScryptKDF logN salt)
      password p2 (fun h => hne h.symm)
    simp only [DecryptMasterKey, EncryptKey, decryptBlock, encryptBlock,
      getKeyEncrypter, contentencNew, cryptocoreNew, isFlagSet]
    rw [if_neg]
    intro hcond
    exact hkeyne hcond.1

/-- Claim C1 witness: a concrete wrap/unwrap run with matching and with
mismatched passwords. -/
theorem c1_key_wrap_roundtrip_witness :
    DecryptMasterKey
        (EncryptKey
          { Creator := "gocryptfs v2.0", EncryptedKey := none,
            ScryptObject := { Salt := [], N := 1024, R := 8, P := 1, KeyLen := 32 },
            Version := 2, FeatureFlags := ["GCMIV128", "HKDF"],
            FIDO2 := ⟨[], []⟩, filename := "gocryptfs.conf" }
          (List.replicate 32 7) [1, 2] 10 (List.replicate 32 9)) [1, 2] =
      .ok (List.replicate 32 7)
    ∧ DecryptMasterKey
        (EncryptKey
          { Creator := "gocryptfs v2.0", EncryptedKey := none,
            ScryptObject := { Salt := [], N := 1024, R := 8, P := 1, KeyLen := 32 },
            Version := 2, FeatureFlags := ["GCMIV128", "HKDF"],
            FIDO2 := ⟨[], []⟩, filename := "gocryptfs.conf" }
          (List.replicate 32 7) [1, 2] 10 (List.replicate 32 9)) [3] =
      .error (.coded "Password incorrect." exitPasswordIncorrect) := by
  have h := c1_key_wrap_roundtrip
    { Creator := "gocryptfs v2.0", EncryptedKey := none,
      ScryptObject := { Salt := [], N := 1024, R := 8, P := 1, KeyLen := 32 },
      Version := 2, FeatureFlags := ["GCMIV128", "HKDF"],
      FIDO2 := ⟨[], []⟩, filename := "gocryptfs.conf" }
    (List.replicate 32 7) [1, 2] 10 (List.replicate 32 9) (by decide)
  exact ⟨h.1, h.2 [3] (by decide)⟩

/-- Claim C2: for every valid plaintext name (no `/` or NUL, not `.` or
`..`, non-empty) and 16-byte IV, `DecryptName` inverts `EncryptName` with no
error. -/
theorem c2_name_roundtrip (nt : NameTransform) (n iv : List Nat)
    (hv : validName n) (hiv : iv.length = 16) :
    DecryptName nt (EncryptName nt n iv) iv = .ok n := by
  have h := decryptName_EncryptName nt n iv hv
  unfold DecryptName
  simp only [h]

/-- Claim C2 witness: the round-trip on the name `file.txt` with a zero IV. -/
theorem c2_name_roundtrip_witness :
    DecryptName ⟨⟨5⟩, true, true, []⟩
        (EncryptName ⟨⟨5⟩, true, true, []⟩ (strBytes "file.txt")
          (List.replicate 16 0))
        (List.replicate 16 0) =
      .ok (strBytes "file.txt") :=
  c2_name_roundtrip ⟨⟨5⟩, true, true, []⟩ (strBytes "file.txt")
    (List.replicate 16 0) (by decide) (by decide)

/-- Claim C4: the AEAD wrapping the master key uses a 96-bit nonce without
the HKDF flag and a 128-bit nonce with it, with empty associated data and
block index 0: `getKeyEncrypter` always picks that nonce length, and a
successful unwrap certifies the stored blob was sealed with exactly those
parameters. -/
theorem c4_keywrap_params (cf : ConfFile) (password masterkey : List Nat)
    (hdec : DecryptMasterKey cf password = .ok masterkey) :
    (∃ blob, cf.EncryptedKey = some blob ∧
      blob.ivLen = (if isFlagSet cf "HKDF" then 128 else 96) ∧
      blob.blockNo = 0 ∧ blob.fileID = [] ∧ blob.plain = masterkey)
    ∧ (∀ scryptHash useHKDF,
        (getKeyEncrypter scryptHash useHKDF).cc.ivLen =
          if useHKDF then 128 else 96) := by
  constructor
  · rw [DecryptMasterKey_ok_iff, decryptBlock_ok_iff] at hdec
    obtain ⟨b, hb, _, hiv, hbn, hfi, hp⟩ := hdec
    refine ⟨b, hb, ?_, hbn, hfi, hp⟩
    rw [hiv]
    unfold getKeyEncrypter contentencNew cryptocoreNew
    cases isFlagSet cf "HKDF" <;> rfl
  · intro scryptHash useHKDF
    cases useHKDF <;> rfl

/-- Claim C4 witness: a concrete successful unwrap certifies the blob
parameters. -/
theorem c4_keywrap_params_witness :
    (∃ blob,
      (EncryptKey
        { Creator := "", EncryptedKey := none,
          ScryptObject := { Salt := [], N := 1024, R := 8, P := 1, KeyLen := 32 },
          Version := 2, FeatureFlags := ["GCMIV128", "HKDF"],
          FIDO2 := ⟨[], []⟩, filename := "" }
        (List.replicate 32 3) [5] 10 [8]).EncryptedKey = some blob ∧
      blob.ivLen =
        (if isFlagSet
            (EncryptKey
              { Creator := "", EncryptedKey := none,
                ScryptObject := { Salt := [], N := 1024, R := 8, P := 1, KeyLen := 32 },
                Version := 2, FeatureFlags := ["GCMIV128", "HKDF"],
                FIDO2 := ⟨[], []⟩, filename := "" }
              (List.replicate 32 3) [5] 10 [8]) "HKDF" then 128 else 96) ∧
      blob.blockNo = 0 ∧ blob.fileID = [] ∧ blob.plain = List.replicate 32 3)
    ∧ (∀ scryptHash useHKDF,
        (getKeyEncrypter scryptHash useHKDF).cc.ivLen =
          if useHKDF then 128 else 96) :=
  c4_keywrap_params _ [5] (List.replicate 32 3) (by decide)

/-- Claim C3 counterexample: a config lacking `EMENames` but carrying
`DirIV` that nevertheless loads, because it also carries `PlaintextNames`
and then only `GCMIV128` is required. -/
theorem c3_counterexample :
    Load (.parsed
      { Creator := "", EncryptedKey := none,
        ScryptObject := { Salt := [], N := 1024, R := 8, P := 1, KeyLen := 32 },
        Version := 2, FeatureFlags := ["GCMIV128", "PlaintextNames", "DirIV"],
        FIDO2 := ⟨[], []⟩, filename := "" }) =
    .ok
      { Creator := "", EncryptedKey := none,
        ScryptObject := { Salt := [], N := 1024, R := 8, P := 1, KeyLen := 32 },
        Version := 2, FeatureFlags := ["GCMIV128", "PlaintextNames", "DirIV"],
        FIDO2 := ⟨[], []⟩, filename := "" } := by
  decide

/-- Claim C3 (amended): `Load` rejects an empty config file, a `Version`
other than the current one, and any unknown feature flag; a config with
known flags and correct version missing any flag its branch requires
(`requiredFlagsPlaintextNames` when `PlaintextNames` is set, otherwise
`requiredFlagsNormal`) fails with the `DeprecatedFS` error carrying exit
code 16; in particular a config lacking `EMENames` but carrying `DirIV`
and not carrying `PlaintextNames` fails with exit code 16. -/
theorem c3_load_validation (cf : ConfFile) :
    (∀ out, Load .empty ≠ .ok out)
    ∧ (cf.Version ≠ CurrentVersion → ∀ out, Load (.parsed cf) ≠ .ok out)
    ∧ (∀ flag, flag ∈ cf.FeatureFlags → flag ∉ knownFlags →
        ∀ out, Load (.parsed cf) ≠ .ok out)
    ∧ (cf.Version = CurrentVersion →
        (∀ flag ∈ cf.FeatureFlags, flag ∈ knownFlags) →
        (∃ flag ∈ (if "PlaintextNames" ∈ cf.FeatureFlags then
            requiredFlagsPlaintextNames else requiredFlagsNormal),
          flag ∉ cf.FeatureFlags) →
        Load (.parsed cf) = .error (.coded "Deprecated filesystem" exitDeprecatedFS))
    ∧ (cf.Version = CurrentVersion →
        (∀ flag ∈ cf.FeatureFlags, flag ∈ knownFlags) →
        "PlaintextNames" ∉ cf.FeatureFlags → "EMENames" ∉ cf.FeatureFlags →
        "DirIV" ∈ cf.FeatureFlags →
        Load (.parsed cf) = .error (.coded "Deprecated filesystem" exitDeprecatedFS)) := by
  have hmain : cf.Version = CurrentVersion →
      (∀ flag ∈ cf.FeatureFlags, flag ∈ knownFlags) →
      (∃ flag ∈ (if "PlaintextNames" ∈ cf.FeatureFlags then
          requiredFlagsPlaintextNames else requiredFlagsNormal),
        flag ∉ cf.FeatureFlags) →
      Load (.parsed cf) =
        .error (.coded "Deprecated filesystem" exitDeprecatedFS) := by
    intro hv hknown hmiss
    simp only [Load]
    rw [if_neg (by simp [hv]), if_neg (not_not_intro hknown), if_neg]
    rintro hall
    obtain ⟨f, hf, hnf⟩ := hmiss
    exact hnf (hall f hf)
  refine ⟨?_, ?_, ?_, hmain, ?_⟩
  · intro out h
    cases h
  · intro hv out
    simp only [Load]
    rw [if_pos hv]
    intro h
    cases h
  · intro flag hmem hunk out
    simp only [Load]
    by_cases hv : cf.Version ≠ CurrentVersion
    · rw [if_pos hv]
      intro h
      cases h
    · rw [if_neg hv, if_pos (by intro hall; exact hunk (hall flag hmem))]
      intro h
      cases h
  · intro hv hknown hpn hem hdiriv
    exact hmain hv hknown ⟨"EMENames", by rw [if_neg hpn]; decide, hem⟩

/-- Claim C3 witness: a v0.6-style config (known flags, current version,
`DirIV` but no `EMENames` and no `PlaintextNames`) is rejected with exit
code 16, via the amended theorem. -/
theorem c3_load_validation_witness :
    Load (.parsed
      { Creator := "", EncryptedKey := none,
        ScryptObject := { Salt := [], N := 1024, R := 8, P := 1, KeyLen := 32 },
        Version := 2, FeatureFlags := ["GCMIV128", "DirIV"],
        FIDO2 := ⟨[], []⟩, filename := "" }) =
    .error (.coded "Deprecated filesystem" exitDeprecatedFS) :=
  (c3_load_validation
    { Creator := "", EncryptedKey := none,
      ScryptObject := { Salt := [], N := 1024, R := 8, P := 1, KeyLen := 32 },
      Version := 2, FeatureFlags := ["GCMIV128", "DirIV"],
      FIDO2 := ⟨[], []⟩, filename := "" }).2.2.2.2
    (by decide) (by decide) (by decide) (by decide) (by decide)

/-- Claim C5: after a successful base64 decode, every corruption class —
empty input, a length that is not a multiple of 16, bad PKCS#7 padding, a
decrypted name containing NUL or `/`, and a decrypted name equal to `.` or
`..` — makes `decryptName` return the one generic error `EBADMSG`. -/
theorem c5_decrypt_error_uniform (nt : NameTransform) (c iv bin : List Nat)
    (hdec : b64Decode nt.raw64 c = some bin) :
    (bin = [] → decryptName nt c iv = .error .ebadmsg)
    ∧ (bin.length % 16 ≠ 0 → decryptName nt c iv = .error .ebadmsg)
    ∧ (bin ≠ [] → bin.length % 16 = 0 →
        unPad16 (emeDecrypt nt.emeCipher iv bin) = none →
        decryptName nt c iv = .error .ebadmsg)
    ∧ (∀ p, bin ≠ [] → bin.length % 16 = 0 →
        unPad16 (emeDecrypt nt.emeCipher iv bin) = some p →
        (0 ∈ p ∨ 47 ∈ p ∨ p = [46] ∨ p = [46, 46]) →
        decryptName nt c iv = .error .ebadmsg) := by
  refine ⟨?_, ?_, ?_, ?_⟩
  · intro h
    subst h
    simp [decryptName, hdec]
  · intro h
    simp only [decryptName, hdec]
    by_cases hz : bin.length = 0
    · rw [if_pos hz]
    · rw [if_neg hz, if_pos h]
  · intro hne h16 hup
    simp only [decryptName, hdec]
    rw [if_neg (by simpa using fun hz => hne (List.eq_nil_of_length_eq_zero hz)),
      if_neg (by simpa using h16)]
    simp only [hup]
  · intro p hne h16 hup hbad
    simp only [decryptName, hdec]
    rw [if_neg (by simpa using fun hz => hne (List.eq_nil_of_length_eq_zero hz)),
      if_neg (by simpa using h16)]
    simp only [hup]
    rcases hbad with h | h | h | h
    · rw [if_pos (Or.inl h)]
    · rw [if_pos (Or.inr h)]
    · subst h
      rw [if_neg (by decide), if_pos (Or.inl rfl)]
    · subst h
      rw [if_neg (by decide), if_pos (Or.inr rfl)]

/-- Claim C5 witness: the empty ciphertext name decodes to the empty byte
string and yields the generic `EBADMSG`. -/
theorem c5_decrypt_error_uniform_witness :
    decryptName ⟨⟨0⟩, true, true, []⟩ [] (List.replicate 16 0) =
      .error .ebadmsg :=
  (c5_decrypt_error_uniform ⟨⟨0⟩, true, true, []⟩ [] (List.replicate 16 0) []
    (by decide)).1 rfl

/-- Claim C6: when `decryptName` fails and the ciphertext name matches a
badname pattern, `DecryptName` tries prefixes of length `len-1` down to
`B64.EncodedLen(16)`; if none decrypts it returns the full name with the
badname marker, and if a longest decryptable prefix of length `j` decrypts
to `r` it returns `r` followed by the truncated suffix and the marker. -/
theorem c6_badname_recovery (nt : NameTransform) (c iv : List Nat)
    (e : NameErr) (hfail : decryptName nt c iv = .error e)
    (hmatch : nt.BadnamePatterns.any (fun pattern => globMatch pattern c) = true) :
    ((∀ j, b64EncodedLen nt.raw64 16 ≤ j → j + 1 ≤ c.length →
        ∀ r, decryptName nt (c.take j) iv ≠ .ok r) →
      DecryptName nt c iv = .ok (c ++ badSuffix))
    ∧ (∀ j r, b64EncodedLen nt.raw64 16 ≤ j → j + 1 ≤ c.length →
        decryptName nt (c.take j) iv = .ok r →
        (∀ j2, j < j2 → j2 + 1 ≤ c.length →
          ∀ r2, decryptName nt (c.take j2) iv ≠ .ok r2) →
        DecryptName nt c iv = .ok (r ++ c.drop j ++ badSuffix)) := by
  constructor
  · intro hnone
    unfold DecryptName
    simp only [hfail, hmatch, if_true]
    have hloop := badnameLoop_none nt c iv
      (c.length - b64EncodedLen nt.raw64 16) (c.length - 1) ?_
    · simp only [hloop]
    · intro j hj1 hj2 r
      exact hnone j (by omega) (by omega) r
  · intro j r hjm hjlen hok hmax
    unfold DecryptName
    simp only [hfail, hmatch, if_true]
    have hloop := badnameLoop_some nt c iv
      (c.length - b64EncodedLen nt.raw64 16) (c.length - 1) j r hok
      (by omega) (by omega) ?_
    · simp only [hloop]
    · intro j2 hj2a hj2b r2
      exact hmax j2 hj2a (by omega) r2

/-- Claim C6 witness: an invalid base64 name shorter than the minimum
prefix length, matching the pattern `*`, comes back with the badname
marker appended. -/
theorem c6_badname_recovery_witness :
    DecryptName ⟨⟨0⟩, true, true, [[42]]⟩ (strBytes "$$$")
        (List.replicate 16 0) =
      .ok (strBytes "$$$" ++ badSuffix) := by
  have h := (c6_badname_recovery ⟨⟨0⟩, true, true, [[42]]⟩ (strBytes "$$$")
    (List.replicate 16 0) .b64 (by decide) (by decide)).1
  apply h
  intro j h1 h2 r
  have h1' : 22 ≤ j := h1
  have h2' : j + 1 ≤ 3 := h2
  omega

/-- Claim C7: every config produced by `Create` carries `GCMIV128` and
`HKDF`, and exactly one of `PlaintextNames` and `EMENames`: with
`plaintextNames` it sets `PlaintextNames`, otherwise `DirIV`, `EMENames`,
`LongNames` and `Raw64`. -/
theorem c7_create_flags (plaintextNames aessiv : Bool)
    (fido2CredentialID fido2HmacSalt : List Nat) (creator filename : String)
    (password key salt : List Nat) (logN : Nat) :
    ("GCMIV128" ∈ (Create plaintextNames aessiv fido2CredentialID fido2HmacSalt
        creator filename password key salt logN).FeatureFlags
      ∧ "HKDF" ∈ (Create plaintextNames aessiv fido2CredentialID fido2HmacSalt
        creator filename password key salt logN).FeatureFlags)
    ∧ (("PlaintextNames" ∈ (Create plaintextNames aessiv fido2CredentialID
          fido2HmacSalt creator filename password key salt logN).FeatureFlags
        ∧ "EMENames" ∉ (Create plaintextNames aessiv fido2CredentialID
          fido2HmacSalt creator filename password key salt logN).FeatureFlags)
       ∨ ("EMENames" ∈ (Create plaintextNames aessiv fido2CredentialID
          fido2HmacSalt creator filename password key salt logN).FeatureFlags
        ∧ "PlaintextNames" ∉ (Create plaintextNames aessiv fido2CredentialID
          fido2HmacSalt creator filename password key salt logN).FeatureFlags))
    ∧ (plaintextNames = true →
        "PlaintextNames" ∈ (Create plaintextNames aessiv fido2CredentialID
          fido2HmacSalt creator filename password key salt logN).FeatureFlags)
    ∧ (plaintextNames = false →
        "DirIV" ∈ (Create plaintextNames aessiv fido2CredentialID fido2HmacSalt
          creator filename password key salt logN).FeatureFlags
        ∧ "EMENames" ∈ (Create plaintextNames aessiv fido2CredentialID
          fido2HmacSalt creator filename password key salt logN).FeatureFlags
        ∧ "LongNames" ∈ (Create plaintextNames aessiv fido2CredentialID
          fido2HmacSalt creator filename password key salt logN).FeatureFlags
        ∧ "Raw64" ∈ (Create plaintextNames aessiv fido2CredentialID
          fido2HmacSalt creator filename password key salt logN).FeatureFlags) := by
  cases plaintextNames <;> cases aessiv <;>
    by_cases hf : 0 < fido2CredentialID.length <;>
    simp [Create, EncryptKey, hf]

/-- Claim C7 witness: flags of a concrete non-plaintextnames creation. -/
theorem c7_create_flags_witness :
    ("GCMIV128" ∈ (Create false false [] [] "c" "f" [1] [2] [3] 10).FeatureFlags
      ∧ "HKDF" ∈ (Create false false [] [] "c" "f" [1] [2] [3] 10).FeatureFlags)
    ∧ (("PlaintextNames" ∈ (Create false false [] [] "c" "f" [1] [2] [3] 10).FeatureFlags
        ∧ "EMENames" ∉ (Create false false [] [] "c" "f" [1] [2] [3] 10).FeatureFlags)
       ∨ ("EMENames" ∈ (Create false false [] [] "c" "f" [1] [2] [3] 10).FeatureFlags
        ∧ "PlaintextNames" ∉ (Create false false [] [] "c" "f" [1] [2] [3] 10).FeatureFlags))
    ∧ (false = true →
        "PlaintextNames" ∈ (Create false false [] [] "c" "f" [1] [2] [3] 10).FeatureFlags)
    ∧ (false = false →
        "DirIV" ∈ (Create false false [] [] "c" "f" [1] [2] [3] 10).FeatureFlags
        ∧ "EMENames" ∈ (Create false false [] [] "c" "f" [1] [2] [3] 10).FeatureFlags
        ∧ "LongNames" ∈ (Create false false [] [] "c" "f" [1] [2] [3] 10).FeatureFlags
        ∧ "Raw64" ∈ (Create false false [] [] "c" "f" [1] [2] [3] 10).FeatureFlags) :=
  c7_create_flags false false [] [] "c" "f" [1] [2] [3] 10

/-- Claim C8 counterexample: `passfile` and `fido2` together are two
password sources, yet the conflict checks of `parseCliOptsBase` do not
reject them. -/
theorem c8_counterexample :
    passwordConflictCheck
      { extpass := [], passfile := ["pw.txt"], masterkey := "",
        fido2 := "/dev/hidraw0" } = none := by
  decide

/-- Claim C8 (amended): the conflict checks reject, with the Usage exit
code, exactly the four pairs the source tests — `extpass`+`passfile`,
`passfile`+`masterkey`, `extpass`+`masterkey` and `extpass`+`fido2`; the
pairs `masterkey`+`fido2` and `passfile`+`fido2` pass undetected. -/
theorem c8_conflict_checks (a : CliArgs) :
    ((a.extpass ≠ [] ∧ a.passfile ≠ []) ∨ (a.passfile ≠ [] ∧ a.masterkey ≠ "") ∨
      (a.extpass ≠ [] ∧ a.masterkey ≠ "") ∨ (a.extpass ≠ [] ∧ a.fido2 ≠ "") →
      passwordConflictCheck a = some exitUsage)
    ∧ (a.extpass = [] → a.passfile = [] → passwordConflictCheck a = none)
    ∧ (a.extpass = [] → a.masterkey = "" → passwordConflictCheck a = none) := by
  refine ⟨?_, ?_, ?_⟩ <;>
    · unfold passwordConflictCheck
      split_ifs <;> tauto

/-- Claim C8 witness: `extpass` together with `passfile` is rejected with
the Usage exit code. -/
theorem c8_conflict_checks_witness :
    passwordConflictCheck
      { extpass := ["prog"], passfile := ["pw.txt"], masterkey := "",
        fido2 := "" } = some exitUsage :=
  (c8_conflict_checks
    { extpass := ["prog"], passfile := ["pw.txt"], masterkey := "",
      fido2 := "" }).1 (Or.inl ⟨by decide, by decide⟩)

/-- Claim C9: when a stale `<filename>.tmp` already exists, the `O_EXCL`
open in `WriteFile` fails, the call returns an error and the directory —
in particular the original config file — is unchanged. -/
theorem c9_writefile_excl (fs : FileSys) (cf : ConfFile) (d : FData)
    (hstale : fsLookup fs (cf.filename ++ ".tmp") = some d) :
    WriteFile fs cf = (fs, some .eexist) := by
  unfold WriteFile
  simp only [hstale]

/-- Claim C9 witness: a directory holding a stale temporary file makes a
concrete `WriteFile` fail without touching the directory. -/
theorem c9_writefile_excl_witness :
    WriteFile
      ⟨[("gocryptfs.conf.tmp", .raw [104, 105]),
        ("gocryptfs.conf", .raw [123, 125])]⟩
      { Creator := "", EncryptedKey := none,
        ScryptObject := { Salt := [], N := 1024, R := 8, P := 1, KeyLen := 32 },
        Version := 2, FeatureFlags := ["GCMIV128", "HKDF"],
        FIDO2 := ⟨[], []⟩, filename := "gocryptfs.conf" } =
    (⟨[("gocryptfs.conf.tmp", .raw [104, 105]),
        ("gocryptfs.conf", .raw [123, 125])]⟩, some .eexist) :=
  c9_writefile_excl _ _ (.raw [104, 105]) (by decide)

/-- Claim C10: with `-o`/`-o=` occurring at least twice and no literal
`--`, `prefixOArgs` expands only the last occurrence's option group,
discarding the earlier groups, and keeps every non-`-o` argument in order
after the expanded options. -/
theorem c10_prefix_oargs_last_wins (prog : String) (rest : List String)
    (gs : List (List String)) (other : List String) (gLast : List String)
    (hnodd : "--" ∉ rest)
    (hscan : scanAllO rest = .ok (gs, other))
    (h2 : 2 ≤ gs.length)
    (hlast : gs.getLast? = some gLast) :
    prefixOArgs (prog :: rest) =
      (match expandO gLast with
       | .ok eo => .ok (prog :: (eo ++ other))
       | .error _ => .error .usageExit) := by
  have hlen := scanAllO_length rest.length rest gs other (Nat.le_refl _) hscan
  have hrel := scanO_eq_scanAllO rest.length rest (Nat.le_refl _)
  rw [hscan] at hrel
  unfold prefixOArgs
  rw [if_neg (by simp only [List.length_cons]; omega),
    if_neg (by simpa using hnodd)]
  simp only [hrel, hlast]
  rcases he : expandO gLast with e | eo <;> simp only [Option.getD_some, he]

/-- Claim C10 witness: of two `-o` groups the second one alone is expanded,
in front of the preserved positional argument. -/
theorem c10_prefix_oargs_last_wins_witness :
    prefixOArgs ["gocryptfs", "-o=ro,noexec", "-o", "rw,dev", "MNT"] =
      .ok ["gocryptfs", "-rw", "-dev", "MNT"] := by
  have h := c10_prefix_oargs_last_wins "gocryptfs"
    ["-o=ro,noexec", "-o", "rw,dev", "MNT"]
    [["ro", "noexec"], ["rw", "dev"]] ["MNT"] ["rw", "dev"]
    (by decide) (by decide) (by decide) (by decide)
  exact h

end Gocryptfs
